import Mathlib

/-!
Verification of the timing-harness core of the Home_activity repository
(`src/app.py`, `src/sqlachemy.py`).

The embedding models:
* the size sampler `np.linspace(10, max_n, num_steps, dtype=int).tolist()`
  used by `measure_times`, with numpy's float64 arithmetic modelled
  bit-exactly: the step is the IEEE-754 binary64 rounding (nearest, ties
  to even) of `(max_n - 10) / (num_steps - 1)`, each element is the
  rounded float64 product `i * step` plus 10 (again rounded), and
  `astype(int)` truncates toward zero; the rounding is implemented over
  `Nat` so the model is kernel-computable;
* the measurement loop of `measure_times` (the monotonic clock
  `time.perf_counter` is an oracle `clock : Nat -> Rat` giving the value of
  the k-th clock read of the loop; iteration j reads the clock at positions
  2*j before and 2*j+1 after the single invocation of the timed closure;
  the work performed between the two reads only influences elapsed real
  time, which lives in the oracle);
* `binary_search_work` exactly as written, with Python list indexing
  (including negative-index wrap-around and the IndexError branch) and an
  explicit fuel so the embedding is executable; fuel exhaustion is a
  distinguished outcome and is proved unreachable;
* the parameter clamping, alias table and dispatch of the `/analyze`
  handler (the plot rendering, base64 encoding and the 6-decimal display
  rounding of the JSON payload are outside the modelled data);
* `save_analysis_result` from `src/sqlachemy.py`, with the database
  commit outcome as an oracle `Except String Int` (error message, or the
  autoincrement id of the saved row).
-/

/-- The four algorithm implementations imported by `src/app.py`
(their bodies live in the `factorial` module, which is not part of the
repository; only the identity of the chosen function matters here). -/
inductive Algo where
  | linear_search
  | bubble_sort
  | binary_search
  | nested_loops
deriving DecidableEq

/-- The alias table `ALGORITHMS` of `src/app.py`, in source order. -/
def ALGORITHMS : List (String × Algo) :=
  [("linear", Algo.linear_search),
   ("linearsearch", Algo.linear_search),
   ("bubble", Algo.bubble_sort),
   ("bubblesort", Algo.bubble_sort),
   ("bubble_sort", Algo.bubble_sort),
   ("binary", Algo.binary_search),
   ("binarysearch", Algo.binary_search),
   ("nested", Algo.nested_loops),
   ("nestedloops", Algo.nested_loops),
   ("exponential", Algo.nested_loops)]

/-- `⌊log2 (a / b)⌋` for `b ≤ a`, by doubling the denominator; the fuel
(64 at every call site) suffices whenever `a < 2^64 * b`. -/
def blog : ℕ → ℕ → ℕ → ℕ
  | 0, _, _ => 0
  | fuel + 1, a, b => if a < 2 * b then 0 else blog fuel a (2 * b) + 1

/-- Round the non-negative rational `a / b` to the nearest integer, ties
to even — the rounding IEEE-754 binary64 arithmetic applies to the
(scaled) significand. -/
def roundNE (a b : ℕ) : ℕ :=
  if 2 * (a % b) < b then a / b
  else if b < 2 * (a % b) then a / b + 1
  else if (a / b) % 2 = 0 then a / b else a / b + 1

/-- Round the non-negative rational `a / b` to the nearest IEEE-754
binary64 value (round-to-nearest, ties to even), returned as a dyadic
`(m, s)` with value `m / 2^s`: the significand is scaled into
`[2^52, 2^53)` and rounded.  Exact for every `a / b` in `[1, 2^53)` and
for `a = 0` (the only inputs arising below: all intermediate linspace
quantities are 0 or lie in `[1, 2^20)`, far from subnormal or overflow
territory). -/
def flN (a b : ℕ) : ℕ × ℕ :=
  if a = 0 then (0, 0)
  else
    let s := 52 - blog 64 a b
    (roundNE (a * 2 ^ s) b, s)

/-- One interior element of `np.linspace(start, start + delta, div + 1,
dtype=int)` computed exactly as numpy's float64 arithmetic does:
`step = fl(delta / div)` (one float64 division), `fl(i * step)` (one
float64 multiplication, `i ≤ 29` being exact), `fl(prod + start)` (one
float64 addition), then `astype(int)` truncation toward zero (floor, the
value being non-negative). -/
def linElemF (start delta div i : ℕ) : ℕ :=
  let step := flN delta div
  let prod := flN (i * step.1) (2 ^ step.2)
  let y := flN (prod.1 + start * 2 ^ prod.2) (2 ^ prod.2)
  y.1 / 2 ^ y.2

/-- `np.linspace(start, stop, num, dtype=int)` as used by
`measure_times`: element `i` is `start + i * ((stop - start) / (num - 1))`
evaluated in IEEE-754 binary64 arithmetic (modelled bit-exactly by
`linElemF`) and truncated toward zero; numpy sets the final element to
`stop` exactly before the cast.  The `Int.toNat` coercions are faithful
on the handler's domain `0 ≤ start ≤ stop` (the program always calls
this with `start = 10` and `stop` clamped into `[100, 20000]`). -/
def linspaceInt (start stop : ℤ) (num : ℕ) : List ℤ :=
  if num = 0 then []
  else if num = 1 then [start]
  else (List.range num).map fun i =>
    if i = num - 1 then stop
    else ((linElemF start.toNat (stop - start).toNat (num - 1) i : ℕ) : ℤ)

/-- The measurement loop of `measure_times`: one iteration per element of
`input_sizes`; iteration `j` reads the clock (read index `2*j`), runs the
timed closure once, reads the clock again (read index `2*j + 1`), and
appends `end - start` to the result. -/
def measureLoop (clock : ℕ → ℚ) : List ℤ → ℕ → List ℚ
  | [], _ => []
  | _n :: rest, j => (clock (2 * j + 1) - clock (2 * j)) :: measureLoop clock rest (j + 1)

/-- `measure_times(algorithm_func, max_n, num_steps)` of `src/app.py`:
returns the sampled `input_sizes` and the parallel list of measured
durations.  The per-algorithm preparation and the chosen closure execute
between the two clock reads of an iteration and affect only elapsed real
time, represented by the clock oracle. -/
def measure_times (algorithm_func : Algo) (clock : ℕ → ℚ) (max_n : ℤ)
    (num_steps : ℕ) : List ℤ × List ℚ :=
  let input_sizes := linspaceInt 10 max_n num_steps
  (input_sizes, measureLoop clock input_sizes 0)

/-- Python list indexing `arr[i]`: non-negative indices from the front,
negative indices wrap from the back, anything else raises `IndexError`
(modelled as `none`). -/
def pyGet (arr : List ℤ) (i : ℤ) : Option ℤ :=
  if 0 ≤ i then arr.get? i.toNat
  else if 0 ≤ i + arr.length then arr.get? (i + arr.length).toNat
  else none

/-- `mid = left + (right - left) // 2` of `binary_search_work`
(Python `//` is floor division, which `Int` division is). -/
def bsMid (left right : ℤ) : ℤ := left + (right - left) / 2

/-- Outcome of one run of `binary_search_work`: a returned integer, an
`IndexError` raised by `arr[mid]`, or exhaustion of the embedding's fuel
(not a behaviour of the program; proved unreachable). -/
inductive BSOutcome where
  | ok (r : ℤ)
  | indexError
  | fuelOut
deriving DecidableEq

/-- The `while left <= right` loop of `binary_search_work`, with explicit
fuel making the embedding structurally recursive and executable. -/
def bsAux (arr : List ℤ) (target : ℤ) : ℕ → ℤ → ℤ → BSOutcome
  | 0, _, _ => BSOutcome.fuelOut
  | fuel + 1, left, right =>
    if left ≤ right then
      match pyGet arr (bsMid left right) with
      | none => BSOutcome.indexError
      | some v =>
        if v = target then BSOutcome.ok (bsMid left right)
        else if v < target then bsAux arr target fuel (bsMid left right + 1) right
        else bsAux arr target fuel left (bsMid left right - 1)
    else BSOutcome.ok (-1)

/-- `binary_search_work(arr, target)` of `src/app.py`:
`left, right = 0, len(arr) - 1` followed by the loop.  The interval width
`right - left + 1` strictly decreases on every iteration, so
`len(arr) + 1` units of fuel always suffice (proved below). -/
def binary_search_work (arr : List ℤ) (target : ℤ) : BSOutcome :=
  bsAux arr target (arr.length + 1) 0 ((arr.length : ℤ) - 1)

/-- `n = max(100, min(n, 20000))` of the `/analyze` handler. -/
def clampN (n : ℤ) : ℤ := max 100 (min n 20000)

/-- `steps = max(4, min(steps, 30))` of the `/analyze` handler. -/
def clampSteps (s : ℤ) : ℤ := max 4 (min s 30)

/-- Python `algo.lower().strip()` implemented over the character list
(ASCII lowering, then stripping leading and trailing whitespace). -/
def pyLowerStrip (s : String) : String :=
  String.mk
    ((((s.data.map Char.toLower).dropWhile Char.isWhitespace).reverse.dropWhile
        Char.isWhitespace).reverse)

/-- The error body `jsonify({"status": "error", "message": ...}), 400`
returned by `/analyze` for an unknown algorithm. -/
structure ErrorResponse where
  status : String
  message : String
  http_code : ℕ
deriving DecidableEq

/-- The measurement-relevant part of the success body of `/analyze`
(`context.algorithm`, `context.max_n`, `context.steps`, `data.input_sizes`,
`data.times_seconds`); the plot image, the total-time field and the
6-decimal display rounding of the durations are not modelled. -/
structure SuccessResponse where
  algorithm : String
  max_n : ℤ
  steps : ℤ
  input_sizes : List ℤ
  times_seconds : List ℚ
deriving DecidableEq

/-- The `/analyze` handler of `src/app.py`: normalize the algorithm name,
clamp `n` and `steps`, reject identifiers missing from `ALGORITHMS` with a
400 error before any measurement, otherwise run `measure_times` once. -/
def analyze (clock : ℕ → ℚ) (algoRaw : String) (nRaw stepsRaw : ℤ) :
    Except ErrorResponse SuccessResponse :=
  let algo := pyLowerStrip algoRaw
  let n := clampN nRaw
  let steps := clampSteps stepsRaw
  match ALGORITHMS.lookup algo with
  | none =>
      Except.error
        ⟨"error",
         "Unknown algorithm. Supported: " ++
           String.intercalate ", " (ALGORITHMS.map Prod.fst), 400⟩
  | some func =>
      let res := measure_times func clock n steps.toNat
      Except.ok ⟨algo, n, steps, res.1, res.2⟩

/-- Return value of `save_analysis_result` of `src/sqlachemy.py`
(`status`, `status_code`, the saved row id when present, `message`;
the echoed `data` dict is not modelled). -/
structure SaveResult where
  status : String
  status_code : ℕ
  saved_id : Option ℤ
  message : String
deriving DecidableEq

/-- `save_analysis_result(data)` of `src/sqlachemy.py`: the whole body is
wrapped in try/except, so the commit outcome (oracle `db`: an exception
message, or the autoincrement id of the inserted row) is mapped totally to
a success or error response and no exception propagates. -/
def save_analysis_result (db : Except String ℤ) : SaveResult :=
  match db with
  | Except.ok saved_id =>
      ⟨"success", 201, some saved_id,
       "Algorithm analysis saved successfully with ID: " ++ toString saved_id⟩
  | Except.error e => ⟨"error", 500, none, "Failed to save analysis: " ++ e⟩

/-- A measurement step followed by an optional persistence step: the pair
returned to the caller (the measurement response, the persistence
response).  The persistence outcome cannot alter the first component. -/
def analyze_and_save (clock : ℕ → ℚ) (algoRaw : String) (nRaw stepsRaw : ℤ)
    (db : Except String ℤ) : (Except ErrorResponse SuccessResponse) × SaveResult :=
  (analyze clock algoRaw nRaw stepsRaw, save_analysis_result db)

/-! ## Sampler lemmas -/

lemma linspace_length (start stop : ℤ) (num : ℕ) :
    (linspaceInt start stop num).length = num := by
  rcases num with _ | num
  · simp [linspaceInt]
  rcases num with _ | num
  · simp [linspaceInt]
  simp [linspaceInt]

lemma linspace_get_lt {start stop : ℤ} {num i : ℕ} (h2 : 2 ≤ num)
    (hi : i < num - 1) :
    (linspaceInt start stop num).get? i =
      some ((linElemF start.toNat (stop - start).toNat (num - 1) i : ℕ) : ℤ) := by
  rw [linspaceInt, if_neg (by omega), if_neg (by omega), List.get?_map,
    List.get?_range (by omega)]
  simp only [Option.map_some']
  rw [if_neg (by omega)]


lemma linspace_get_last {start stop : ℤ} {num : ℕ} (h2 : 2 ≤ num) :
    (linspaceInt start stop num).get? (num - 1) = some stop := by
  rw [linspaceInt, if_neg (by omega), if_neg (by omega), List.get?_map,
    List.get?_range (by omega)]
  simp

/-! ## IEEE-754 binary64 rounding lemmas -/

lemma roundNE_ge (a b : ℕ) : a / b ≤ roundNE a b := by
  unfold roundNE
  split_ifs <;> omega

lemma roundNE_le (a b : ℕ) : roundNE a b ≤ a / b + 1 := by
  unfold roundNE
  split_ifs <;> omega

lemma roundNE_err (a b : ℕ) (hb : 0 < b) :
    2 * roundNE a b * b ≤ 2 * a + b ∧ 2 * a ≤ 2 * roundNE a b * b + b := by
  have hdm : a / b * b + a % b = a := Nat.div_add_mod' a b
  have hlt : a % b < b := Nat.mod_lt a hb
  unfold roundNE
  generalize a / b = q at hdm ⊢
  generalize a % b = r at hdm hlt ⊢
  split_ifs with h1 h2 h3 <;> constructor <;> nlinarith [hdm, hlt]

lemma roundNE_scale (a b c : ℕ) (hc : 0 < c) :
    roundNE (a * c) (b * c) = roundNE a b := by
  unfold roundNE
  rw [Nat.mul_div_mul_right a b hc, Nat.mul_mod_mul_right c a b]
  have h1 : 2 * (a % b * c) < b * c ↔ 2 * (a % b) < b := by
    rw [show 2 * (a % b * c) = 2 * (a % b) * c from by ring]
    exact mul_lt_mul_right hc
  have h2 : b * c < 2 * (a % b * c) ↔ b < 2 * (a % b) := by
    rw [show 2 * (a % b * c) = 2 * (a % b) * c from by ring]
    exact mul_lt_mul_right hc
  simp only [h1, h2]

lemma roundNE_mono {a1 a2 b : ℕ} (hb : 0 < b) (h : a1 ≤ a2) :
    roundNE a1 b ≤ roundNE a2 b := by
  have hq : a1 / b ≤ a2 / b := Nat.div_le_div_right h
  rcases lt_or_eq_of_le hq with hlt | heq
  · calc roundNE a1 b ≤ a1 / b + 1 := roundNE_le a1 b
      _ ≤ a2 / b := by omega
      _ ≤ roundNE a2 b := roundNE_ge a2 b
  · have hd1 : a1 / b * b + a1 % b = a1 := Nat.div_add_mod' a1 b
    have hd2 : a2 / b * b + a2 % b = a2 := Nat.div_add_mod' a2 b
    rw [heq] at hd1
    have hr : a1 % b ≤ a2 % b := by omega
    unfold roundNE
    rw [heq]
    split_ifs <;> omega

lemma roundNE_cross_mono {a1 b1 a2 b2 : ℕ} (hb1 : 0 < b1) (hb2 : 0 < b2)
    (h : a1 * b2 ≤ a2 * b1) : roundNE a1 b1 ≤ roundNE a2 b2 := by
  have e1 : roundNE a1 b1 = roundNE (a1 * b2) (b1 * b2) :=
    (roundNE_scale a1 b1 b2 hb2).symm
  have e2 : roundNE a2 b2 = roundNE (a2 * b1) (b1 * b2) := by
    rw [show b1 * b2 = b2 * b1 from Nat.mul_comm b1 b2]
    exact (roundNE_scale a2 b2 b1 hb1).symm
  rw [e1, e2]
  exact roundNE_mono (by positivity) h

lemma blog_spec : ∀ (fuel a b : ℕ), 0 < b → b ≤ a → a < 2 ^ fuel * b →
    2 ^ blog fuel a b * b ≤ a ∧ a < 2 ^ blog fuel a b * (2 * b) := by
  intro fuel
  induction fuel with
  | zero =>
    intro a b hb hba hub
    simp only [pow_zero, one_mul] at hub
    omega
  | succ fuel ih =>
    intro a b hb hba hub
    rw [blog]
    by_cases h2 : a < 2 * b
    · rw [if_pos h2]
      simpa using ⟨hba, by omega⟩
    · rw [if_neg h2]
      have hub2 : a < 2 ^ fuel * (2 * b) := by
        rw [pow_succ, mul_assoc] at hub
        exact hub
      obtain ⟨hl, hr⟩ := ih a (2 * b) (by omega) (by omega) hub2
      constructor
      · calc 2 ^ (blog fuel a (2 * b) + 1) * b
            = 2 ^ blog fuel a (2 * b) * (2 * b) := by ring
          _ ≤ a := hl
      · calc a < 2 ^ blog fuel a (2 * b) * (2 * (2 * b)) := hr
          _ = 2 ^ (blog fuel a (2 * b) + 1) * (2 * b) := by ring


lemma flN_s_le (a b : ℕ) : (flN a b).2 ≤ 52 := by
  rw [flN]
  split_ifs <;> simp

lemma flN_spec {a b : ℕ} (hb : 0 < b) (hba : b ≤ a) (hub : a < 2 ^ 53 * b) :
    2 ^ 52 * b ≤ a * 2 ^ (flN a b).2 ∧
    a * 2 ^ (flN a b).2 < 2 ^ 53 * b ∧
    2 ^ 52 ≤ (flN a b).1 ∧ (flN a b).1 ≤ 2 ^ 53 ∧
    2 * (flN a b).1 * b ≤ 2 * (a * 2 ^ (flN a b).2) + b ∧
    2 * (a * 2 ^ (flN a b).2) ≤ 2 * (flN a b).1 * b + b := by
  have ha : a ≠ 0 := by omega
  have hub64 : a < 2 ^ 64 * b := by
    calc a < 2 ^ 53 * b := hub
      _ ≤ 2 ^ 64 * b := Nat.mul_le_mul_right b (by norm_num)
  obtain ⟨hl, hr⟩ := blog_spec 64 a b hb hba hub64
  have he52 : blog 64 a b ≤ 52 := by
    by_contra hc
    push_neg at hc
    have h53 : 2 ^ 53 * b ≤ 2 ^ blog 64 a b * b :=
      Nat.mul_le_mul_right b (Nat.pow_le_pow_right (by norm_num) (by omega))
    omega
  have hs : (flN a b).2 = 52 - blog 64 a b := by rw [flN, if_neg ha]
  have hm : (flN a b).1 = roundNE (a * 2 ^ (52 - blog 64 a b)) b := by
    rw [flN, if_neg ha]
  rw [hs, hm]
  set e := blog 64 a b with he
  have hkey : (2 : ℕ) ^ 52 = 2 ^ (52 - e) * 2 ^ e := by
    rw [← pow_add]
    congr 1
    omega
  have hbin1 : 2 ^ 52 * b ≤ a * 2 ^ (52 - e) := by
    calc 2 ^ 52 * b = 2 ^ (52 - e) * (2 ^ e * b) := by rw [hkey]; ring
      _ ≤ 2 ^ (52 - e) * a := Nat.mul_le_mul_left _ hl
      _ = a * 2 ^ (52 - e) := Nat.mul_comm _ _
  have hbin2 : a * 2 ^ (52 - e) < 2 ^ 53 * b := by
    calc a * 2 ^ (52 - e) < 2 ^ e * (2 * b) * 2 ^ (52 - e) :=
          (mul_lt_mul_right (by positivity)).mpr hr
      _ = 2 ^ (52 - e) * 2 ^ e * (2 * b) := by ring
      _ = 2 ^ 52 * (2 * b) := by rw [← hkey]
      _ = 2 ^ 53 * b := by ring
  have hq1 : 2 ^ 52 ≤ a * 2 ^ (52 - e) / b := (Nat.le_div_iff_mul_le hb).mpr hbin1
  have hq2 : a * 2 ^ (52 - e) / b < 2 ^ 53 := (Nat.div_lt_iff_lt_mul hb).mpr hbin2
  obtain ⟨herr1, herr2⟩ := roundNE_err (a * 2 ^ (52 - e)) b hb
  refine ⟨hbin1, hbin2, ?_, ?_, herr1, herr2⟩
  · calc 2 ^ 52 ≤ a * 2 ^ (52 - e) / b := hq1
      _ ≤ roundNE (a * 2 ^ (52 - e)) b := roundNE_ge _ _
  · calc roundNE (a * 2 ^ (52 - e)) b ≤ a * 2 ^ (52 - e) / b + 1 := roundNE_le _ _
      _ ≤ 2 ^ 53 := by omega

lemma flN_mono {a1 b1 a2 b2 : ℕ} (hb1 : 0 < b1) (hb2 : 0 < b2)
    (h1a : b1 ≤ a1) (h2a : b2 ≤ a2) (hu1 : a1 < 2 ^ 53 * b1)
    (hu2 : a2 < 2 ^ 53 * b2) (hcross : a1 * b2 ≤ a2 * b1) :
    (flN a1 b1).1 * 2 ^ (flN a2 b2).2 ≤ (flN a2 b2).1 * 2 ^ (flN a1 b1).2 := by
  have ha1 : a1 ≠ 0 := by omega
  have ha2 : a2 ≠ 0 := by omega
  have hub64a : a1 < 2 ^ 64 * b1 := by
    calc a1 < 2 ^ 53 * b1 := hu1
      _ ≤ 2 ^ 64 * b1 := Nat.mul_le_mul_right b1 (by norm_num)
  have hub64b : a2 < 2 ^ 64 * b2 := by
    calc a2 < 2 ^ 53 * b2 := hu2
      _ ≤ 2 ^ 64 * b2 := Nat.mul_le_mul_right b2 (by norm_num)
  obtain ⟨hl1, hr1⟩ := blog_spec 64 a1 b1 hb1 h1a hub64a
  obtain ⟨hl2, hr2⟩ := blog_spec 64 a2 b2 hb2 h2a hub64b
  obtain ⟨hb1a, hb1b, hm1lo, hm1hi, he1a, he1b⟩ := flN_spec hb1 h1a hu1
  obtain ⟨hb2a, hb2b, hm2lo, hm2hi, he2a, he2b⟩ := flN_spec hb2 h2a hu2
  set e1 := blog 64 a1 b1 with hee1
  set e2 := blog 64 a2 b2 with hee2
  have hs1 : (flN a1 b1).2 = 52 - e1 := by rw [flN, if_neg ha1]
  have hs2 : (flN a2 b2).2 = 52 - e2 := by rw [flN, if_neg ha2]
  have he1le : e1 ≤ e2 := by
    by_contra hc
    push_neg at hc
    have s1 : 2 ^ e1 * b1 * b2 ≤ a1 * b2 := Nat.mul_le_mul_right b2 hl1
    have s2 : (2 : ℕ) ^ (e2 + 1) ≤ 2 ^ e1 :=
      Nat.pow_le_pow_right (by norm_num) (by omega)
    have s3 : a2 * b1 < 2 ^ e2 * (2 * b2) * b1 :=
      (mul_lt_mul_right hb1).mpr hr2
    have s4 : (2 : ℕ) ^ e2 * (2 * b2) * b1 = 2 ^ (e2 + 1) * b1 * b2 := by ring
    have s5 : (2 : ℕ) ^ (e2 + 1) * b1 * b2 ≤ 2 ^ e1 * b1 * b2 :=
      Nat.mul_le_mul_right b2 (Nat.mul_le_mul_right b1 s2)
    omega
  have he2le52 : e2 ≤ 52 := by
    by_contra hc
    push_neg at hc
    have h53 : 2 ^ 53 * b2 ≤ 2 ^ e2 * b2 :=
      Nat.mul_le_mul_right b2 (Nat.pow_le_pow_right (by norm_num) (by omega))
    omega
  rcases lt_or_eq_of_le he1le with hlt | heq
  · -- different binades: m1 ≤ 2^53 and 2^52 ≤ m2 decide it
    rw [hs1, hs2]
    have hstep : 53 + (52 - e2) ≤ 52 + (52 - e1) := by omega
    calc (flN a1 b1).1 * 2 ^ (52 - e2) ≤ 2 ^ 53 * 2 ^ (52 - e2) :=
          Nat.mul_le_mul_right _ hm1hi
      _ = 2 ^ (53 + (52 - e2)) := by rw [← pow_add]
      _ ≤ 2 ^ (52 + (52 - e1)) := Nat.pow_le_pow_right (by norm_num) hstep
      _ = 2 ^ 52 * 2 ^ (52 - e1) := by rw [← pow_add]
      _ ≤ (flN a2 b2).1 * 2 ^ (52 - e1) := Nat.mul_le_mul_right _ hm2lo
  · -- same binade: same scale, cross-monotone significand rounding
    rw [hs1, hs2, ← heq]
    have hm1 : (flN a1 b1).1 = roundNE (a1 * 2 ^ (52 - e1)) b1 := by
      rw [flN, if_neg ha1]
    have hm2 : (flN a2 b2).1 = roundNE (a2 * 2 ^ (52 - e1)) b2 := by
      rw [flN, if_neg ha2, ← hee2, ← heq]
    rw [hm1, hm2]
    have hc2 : a1 * 2 ^ (52 - e1) * b2 ≤ a2 * 2 ^ (52 - e1) * b1 := by
      calc a1 * 2 ^ (52 - e1) * b2 = a1 * b2 * 2 ^ (52 - e1) := by ring
        _ ≤ a2 * b1 * 2 ^ (52 - e1) := Nat.mul_le_mul_right _ hcross
        _ = a2 * 2 ^ (52 - e1) * b1 := by ring
    exact Nat.mul_le_mul_right _ (roundNE_cross_mono hb1 hb2 hc2)

lemma nat_div_le_div_cross {a b c d : ℕ} (hb : 0 < b) (hd : 0 < d)
    (h : a * d ≤ c * b) : a / b ≤ c / d := by
  have h1 : c < d * (c / d) + d := by
    have hdm := Nat.div_add_mod c d
    have hlt := Nat.mod_lt c hd
    omega
  have h2 : c * b < (d * (c / d) + d) * b := (mul_lt_mul_right hb).mpr h1
  have h3 : (d * (c / d) + d) * b = ((c / d + 1) * b) * d := by ring
  have h4 : a * d < ((c / d + 1) * b) * d := by omega
  have h5 : a < (c / d + 1) * b := lt_of_mul_lt_mul_right h4 (Nat.zero_le d)
  have h6 : a / b < c / d + 1 := (Nat.div_lt_iff_lt_mul hb).mpr h5
  omega


lemma stage1_facts {δ d : ℕ} (hd3 : 3 ≤ d) (hd29 : d ≤ 29) (hδ90 : 90 ≤ δ)
    (hδub : δ ≤ 19990) :
    2 ^ 52 ≤ (flN δ d).1 ∧ (flN δ d).1 ≤ 2 ^ 53 ∧
    3 * 2 ^ 37 ≤ 2 ^ (flN δ d).2 ∧ 2 ^ (flN δ d).2 ≤ 2 ^ 52 ∧
    2 * (flN δ d).1 * d ≤ 2 * (δ * 2 ^ (flN δ d).2) + d ∧
    2 * (δ * 2 ^ (flN δ d).2) ≤ 2 * (flN δ d).1 * d + d := by
  have hval : (0 : ℕ) < d ∧ d ≤ δ ∧ δ < 2 ^ 53 * d := by
    refine ⟨by omega, by omega, ?_⟩
    calc δ ≤ 19990 := hδub
      _ < 2 ^ 53 * 3 := by norm_num
      _ ≤ 2 ^ 53 * d := Nat.mul_le_mul_left _ hd3
  obtain ⟨hbin1, hbin2, hmlo, hmhi, herr1, herr2⟩ :=
    flN_spec hval.1 hval.2.1 hval.2.2
  have hP1ub : 2 ^ (flN δ d).2 ≤ 2 ^ 52 :=
    Nat.pow_le_pow_right (by norm_num) (flN_s_le δ d)
  have hP1lb : 3 * 2 ^ 37 ≤ 2 ^ (flN δ d).2 := by
    have c1 : 2 ^ 52 * 3 ≤ 2 ^ 52 * d := Nat.mul_le_mul_left _ hd3
    have c2 : δ * 2 ^ (flN δ d).2 ≤ 19990 * 2 ^ (flN δ d).2 :=
      Nat.mul_le_mul_right _ hδub
    omega
  exact ⟨hmlo, hmhi, hP1lb, hP1ub, herr1, herr2⟩

lemma stage2_facts {δ d i : ℕ} (hd3 : 3 ≤ d) (hd29 : d ≤ 29) (hδ90 : 90 ≤ δ)
    (hδub : δ ≤ 19990) (hi1 : 1 ≤ i) (hi29 : i ≤ 29) :
    2 ^ 52 ≤ (flN (i * (flN δ d).1) (2 ^ (flN δ d).2)).1 ∧
    (flN (i * (flN δ d).1) (2 ^ (flN δ d).2)).1 ≤ 2 ^ 53 ∧
    2 ^ 32 ≤ 2 ^ (flN (i * (flN δ d).1) (2 ^ (flN δ d).2)).2 ∧
    2 ^ (flN (i * (flN δ d).1) (2 ^ (flN δ d).2)).2 ≤ 2 ^ 52 ∧
    2 * (flN (i * (flN δ d).1) (2 ^ (flN δ d).2)).1 * 2 ^ (flN δ d).2 ≤
      2 * (i * (flN δ d).1 * 2 ^ (flN (i * (flN δ d).1) (2 ^ (flN δ d).2)).2) +
        2 ^ (flN δ d).2 ∧
    2 * (i * (flN δ d).1 * 2 ^ (flN (i * (flN δ d).1) (2 ^ (flN δ d).2)).2) ≤
      2 * (flN (i * (flN δ d).1) (2 ^ (flN δ d).2)).1 * 2 ^ (flN δ d).2 +
        2 ^ (flN δ d).2 := by
  obtain ⟨hms1, hms2, hP1a, hP1b, _, _⟩ := stage1_facts hd3 hd29 hδ90 hδub
  have hb : (0 : ℕ) < 2 ^ (flN δ d).2 := by positivity
  have hba : 2 ^ (flN δ d).2 ≤ i * (flN δ d).1 := by
    have h1 : (flN δ d).1 ≤ i * (flN δ d).1 := Nat.le_mul_of_pos_left _ (by omega)
    omega
  have hub : i * (flN δ d).1 < 2 ^ 53 * 2 ^ (flN δ d).2 := by
    have h1 : i * (flN δ d).1 ≤ 29 * 2 ^ 53 :=
      Nat.mul_le_mul hi29 hms2
    have h2 : 2 ^ 53 * (3 * 2 ^ 37) ≤ 2 ^ 53 * 2 ^ (flN δ d).2 :=
      Nat.mul_le_mul_left _ hP1a
    omega
  obtain ⟨hbin1, hbin2, hmlo, hmhi, herr1, herr2⟩ := flN_spec hb hba hub
  have hP2ub : 2 ^ (flN (i * (flN δ d).1) (2 ^ (flN δ d).2)).2 ≤ 2 ^ 52 :=
    Nat.pow_le_pow_right (by norm_num) (flN_s_le _ _)
  have hP2lb : 2 ^ 32 ≤ 2 ^ (flN (i * (flN δ d).1) (2 ^ (flN δ d).2)).2 := by
    by_contra hc
    push_neg at hc
    have c1 : 2 ^ 52 * (3 * 2 ^ 37) ≤ 2 ^ 52 * 2 ^ (flN δ d).2 :=
      Nat.mul_le_mul_left _ hP1a
    have c2 : i * (flN δ d).1 *
        2 ^ (flN (i * (flN δ d).1) (2 ^ (flN δ d).2)).2 ≤
        (29 * 2 ^ 53) * 2 ^ (flN (i * (flN δ d).1) (2 ^ (flN δ d).2)).2 :=
      Nat.mul_le_mul_right _ (Nat.mul_le_mul hi29 hms2)
    have c3 : (29 * 2 ^ 53) * 2 ^ (flN (i * (flN δ d).1) (2 ^ (flN δ d).2)).2 ≤
        (29 * 2 ^ 53) * 2 ^ 32 := Nat.mul_le_mul_left _ (by omega)
    omega
  exact ⟨hmlo, hmhi, hP2lb, hP2ub, herr1, herr2⟩

lemma stage3_facts {δ d i : ℕ} (hd3 : 3 ≤ d) (hd29 : d ≤ 29) (hδ90 : 90 ≤ δ)
    (hδub : δ ≤ 19990) (hi1 : 1 ≤ i) (hi29 : i ≤ 29) :
    2 ^ 52 ≤ (flN ((flN (i * (flN δ d).1) (2 ^ (flN δ d).2)).1 +
        10 * 2 ^ (flN (i * (flN δ d).1) (2 ^ (flN δ d).2)).2)
      (2 ^ (flN (i * (flN δ d).1) (2 ^ (flN δ d).2)).2)).1 ∧
    (flN ((flN (i * (flN δ d).1) (2 ^ (flN δ d).2)).1 +
        10 * 2 ^ (flN (i * (flN δ d).1) (2 ^ (flN δ d).2)).2)
      (2 ^ (flN (i * (flN δ d).1) (2 ^ (flN δ d).2)).2)).1 ≤ 2 ^ 53 ∧
    4 ≤ 2 ^ (flN ((flN (i * (flN δ d).1) (2 ^ (flN δ d).2)).1 +
        10 * 2 ^ (flN (i * (flN δ d).1) (2 ^ (flN δ d).2)).2)
      (2 ^ (flN (i * (flN δ d).1) (2 ^ (flN δ d).2)).2)).2 ∧
    2 * (flN ((flN (i * (flN δ d).1) (2 ^ (flN δ d).2)).1 +
        10 * 2 ^ (flN (i * (flN δ d).1) (2 ^ (flN δ d).2)).2)
      (2 ^ (flN (i * (flN δ d).1) (2 ^ (flN δ d).2)).2)).1 *
        2 ^ (flN (i * (flN δ d).1) (2 ^ (flN δ d).2)).2 ≤
      2 * (((flN (i * (flN δ d).1) (2 ^ (flN δ d).2)).1 +
          10 * 2 ^ (flN (i * (flN δ d).1) (2 ^ (flN δ d).2)).2) *
        2 ^ (flN ((flN (i * (flN δ d).1) (2 ^ (flN δ d).2)).1 +
            10 * 2 ^ (flN (i * (flN δ d).1) (2 ^ (flN δ d).2)).2)
          (2 ^ (flN (i * (flN δ d).1) (2 ^ (flN δ d).2)).2)).2) +
        2 ^ (flN (i * (flN δ d).1) (2 ^ (flN δ d).2)).2 ∧
    2 * (((flN (i * (flN δ d).1) (2 ^ (flN δ d).2)).1 +
        10 * 2 ^ (flN (i * (flN δ d).1) (2 ^ (flN δ d).2)).2) *
      2 ^ (flN ((flN (i * (flN δ d).1) (2 ^ (flN δ d).2)).1 +
          10 * 2 ^ (flN (i * (flN δ d).1) (2 ^ (flN δ d).2)).2)
        (2 ^ (flN (i * (flN δ d).1) (2 ^ (flN δ d).2)).2)).2) ≤
      2 * (flN ((flN (i * (flN δ d).1) (2 ^ (flN δ d).2)).1 +
          10 * 2 ^ (flN (i * (flN δ d).1) (2 ^ (flN δ d).2)).2)
        (2 ^ (flN (i * (flN δ d).1) (2 ^ (flN δ d).2)).2)).1 *
        2 ^ (flN (i * (flN δ d).1) (2 ^ (flN δ d).2)).2 +
        2 ^ (flN (i * (flN δ d).1) (2 ^ (flN δ d).2)).2 := by
  obtain ⟨hmp1, hmp2, hP2a, hP2b, _, _⟩ :=
    stage2_facts hd3 hd29 hδ90 hδub hi1 hi29
  set mp := (flN (i * (flN δ d).1) (2 ^ (flN δ d).2)).1 with hmp
  set P2 := 2 ^ (flN (i * (flN δ d).1) (2 ^ (flN δ d).2)).2 with hP2
  have hb : 0 < P2 := by positivity
  have hba : P2 ≤ mp + 10 * P2 := by omega
  have hub : mp + 10 * P2 < 2 ^ 53 * P2 := by omega
  obtain ⟨hbin1, hbin2, hmlo, hmhi, herr1, herr2⟩ := flN_spec hb hba hub
  refine ⟨hmlo, hmhi, ?_, herr1, herr2⟩
  set P3 := 2 ^ (flN (mp + 10 * P2) P2).2 with hP3
  by_contra hc
  push_neg at hc
  have c1 : 2 ^ 52 * P2 ≤ (mp + 10 * P2) * P3 := hbin1
  have c2 : (mp + 10 * P2) * P3 ≤ (mp + 10 * P2) * 3 :=
    Nat.mul_le_mul_left _ (by omega)
  omega


lemma fl_chain_upper {δ d i ms P1 mp P2 my P3 : ℕ} (hd : 0 < d)
    (h1 : 2 * ms * d ≤ 2 * (δ * P1) + d)
    (h2 : 2 * mp * P1 ≤ 2 * (i * ms * P2) + P1)
    (h3 : 2 * my * P2 ≤ 2 * ((mp + 10 * P2) * P3) + P2)
    (hiP1 : 3 * i ≤ P1) (h3P2 : 3 ≤ P2) (h3P3 : 3 ≤ P3) :
    my * (P1 * P2 * d) ≤ (10 * d + i * δ + d) * (P1 * P2 * P3) := by
  have s1 : 2 * (ms * d) ≤ 2 * (δ * P1) + 2 * d := by linarith
  have s2 : 2 * (mp * P1) ≤ 2 * (i * ms * P2) + 2 * P1 := by linarith
  have s3 : 2 * (my * P2) ≤ 2 * ((mp + 10 * P2) * P3) + 2 * P2 := by linarith
  have s1h : ms * d ≤ δ * P1 + d := by linarith
  have s2h : mp * P1 ≤ i * ms * P2 + P1 := by linarith
  have s3h : my * P2 ≤ (mp + 10 * P2) * P3 + P2 := by linarith
  have t3 : my * P2 * (P1 * d) ≤ ((mp + 10 * P2) * P3 + P2) * (P1 * d) :=
    Nat.mul_le_mul_right _ s3h
  have t2 : mp * P1 * (P3 * d) ≤ (i * ms * P2 + P1) * (P3 * d) :=
    Nat.mul_le_mul_right _ s2h
  have t1 : ms * d * (i * P2 * P3) ≤ (δ * P1 + d) * (i * P2 * P3) :=
    Nat.mul_le_mul_right _ s1h
  have u1 : 3 * i * (d * (P2 * P3)) ≤ P1 * (d * (P2 * P3)) :=
    Nat.mul_le_mul_right _ hiP1
  have u2 : 3 * (P1 * (P3 * d)) ≤ P2 * (P1 * (P3 * d)) :=
    Nat.mul_le_mul_right _ h3P2
  have u3 : 3 * (P1 * (P2 * d)) ≤ P3 * (P1 * (P2 * d)) :=
    Nat.mul_le_mul_right _ h3P3
  nlinarith [t1, t2, t3, u1, u2, u3]

lemma fl_chain_lower {δ d i ms P1 mp P2 my P3 : ℕ} (hd : 0 < d)
    (h1 : 2 * (δ * P1) ≤ 2 * ms * d + d)
    (h2 : 2 * (i * ms * P2) ≤ 2 * mp * P1 + P1)
    (h3 : 2 * ((mp + 10 * P2) * P3) ≤ 2 * my * P2 + P2)
    (hiP1 : 3 * i ≤ P1) (h3P2 : 3 ≤ P2) (h3P3 : 3 ≤ P3) :
    (10 * d + i * δ) * (P1 * P2 * P3) ≤ my * (P1 * P2 * d) + d * (P1 * P2 * P3) := by
  have s1h : δ * P1 ≤ ms * d + d := by linarith
  have s2h : i * ms * P2 ≤ mp * P1 + P1 := by linarith
  have s3h : (mp + 10 * P2) * P3 ≤ my * P2 + P2 := by linarith
  have t1 : δ * P1 * (i * P2 * P3) ≤ (ms * d + d) * (i * P2 * P3) :=
    Nat.mul_le_mul_right _ s1h
  have t2 : i * ms * P2 * (d * P3) ≤ (mp * P1 + P1) * (d * P3) :=
    Nat.mul_le_mul_right _ s2h
  have t3 : (mp + 10 * P2) * P3 * (P1 * d) ≤ (my * P2 + P2) * (P1 * d) :=
    Nat.mul_le_mul_right _ s3h
  have u1 : 3 * i * (d * (P2 * P3)) ≤ P1 * (d * (P2 * P3)) :=
    Nat.mul_le_mul_right _ hiP1
  have u2 : 3 * (P1 * (P3 * d)) ≤ P2 * (P1 * (P3 * d)) :=
    Nat.mul_le_mul_right _ h3P2
  have u3 : 3 * (P1 * (P2 * d)) ≤ P3 * (P1 * (P2 * d)) :=
    Nat.mul_le_mul_right _ h3P3
  nlinarith [t1, t2, t3, u1, u2, u3]

lemma linElemF_zero (δ d : ℕ) : linElemF 10 δ d 0 = 10 := by
  have h0 : flN (0 * (flN δ d).1) (2 ^ (flN δ d).2) = (0, 0) := by
    rw [zero_mul, flN, if_pos rfl]
  show (flN ((flN (0 * (flN δ d).1) (2 ^ (flN δ d).2)).1 +
      10 * 2 ^ (flN (0 * (flN δ d).1) (2 ^ (flN δ d).2)).2)
    (2 ^ (flN (0 * (flN δ d).1) (2 ^ (flN δ d).2)).2)).1 /
    2 ^ (flN ((flN (0 * (flN δ d).1) (2 ^ (flN δ d).2)).1 +
      10 * 2 ^ (flN (0 * (flN δ d).1) (2 ^ (flN δ d).2)).2)
    (2 ^ (flN (0 * (flN δ d).1) (2 ^ (flN δ d).2)).2)).2 = 10
  rw [h0]
  decide

lemma linElemF_bounds {δ d i : ℕ} (hd3 : 3 ≤ d) (hd29 : d ≤ 29) (hδ90 : 90 ≤ δ)
    (hδub : δ ≤ 19990) (hi1 : 1 ≤ i) (hi29 : i ≤ 29) :
    (10 * d + i * δ) / d ≤ linElemF 10 δ d i + 1 ∧
    linElemF 10 δ d i ≤ (10 * d + i * δ) / d + 1 := by
  obtain ⟨hms1, hms2, hP1a, hP1b, he1u, he1l⟩ := stage1_facts hd3 hd29 hδ90 hδub
  obtain ⟨hmp1, hmp2, hP2a, hP2b, he2u, he2l⟩ :=
    stage2_facts hd3 hd29 hδ90 hδub hi1 hi29
  obtain ⟨hmy1, hmy2, hP3a, he3u, he3l⟩ :=
    stage3_facts hd3 hd29 hδ90 hδub hi1 hi29
  have hkdiv : linElemF 10 δ d i =
      (flN ((flN (i * (flN δ d).1) (2 ^ (flN δ d).2)).1 +
          10 * 2 ^ (flN (i * (flN δ d).1) (2 ^ (flN δ d).2)).2)
        (2 ^ (flN (i * (flN δ d).1) (2 ^ (flN δ d).2)).2)).1 /
      2 ^ (flN ((flN (i * (flN δ d).1) (2 ^ (flN δ d).2)).1 +
          10 * 2 ^ (flN (i * (flN δ d).1) (2 ^ (flN δ d).2)).2)
        (2 ^ (flN (i * (flN δ d).1) (2 ^ (flN δ d).2)).2)).2 := rfl
  rw [hkdiv]
  clear hkdiv
  generalize hg1 : (flN δ d).1 = ms at *
  generalize hg2 : (flN δ d).2 = ss at *
  generalize hg3 : (flN (i * ms) (2 ^ ss)).1 = mp at *
  generalize hg4 : (flN (i * ms) (2 ^ ss)).2 = sp at *
  generalize hg5 : (flN (mp + 10 * 2 ^ sp) (2 ^ sp)).1 = my at *
  generalize hg6 : (flN (mp + 10 * 2 ^ sp) (2 ^ sp)).2 = sy at *
  clear hg1 hg2 hg3 hg4 hg5 hg6
  set P1 := 2 ^ ss with hP1
  set P2 := 2 ^ sp with hP2
  set P3 := 2 ^ sy with hP3
  have hd0 : (0 : ℕ) < d := by omega
  have hP1pos : (0 : ℕ) < P1 := by positivity
  have hP2pos : (0 : ℕ) < P2 := by positivity
  have hP3pos : (0 : ℕ) < P3 := by positivity
  have hiP1 : 3 * i ≤ P1 := by omega
  have h3P2 : (3 : ℕ) ≤ P2 := by omega
  have h3P3 : (3 : ℕ) ≤ P3 := by omega
  have hcu := fl_chain_upper hd0 he1u he2u he3u hiP1 h3P2 h3P3
  have hcl := fl_chain_lower hd0 he1l he2l he3l hiP1 h3P2 h3P3
  have hcu2 : my * d ≤ (10 * d + i * δ + d) * P3 := by
    have c1 : (P1 * P2) * (my * d) ≤ (P1 * P2) * ((10 * d + i * δ + d) * P3) := by
      calc (P1 * P2) * (my * d) = my * (P1 * P2 * d) := by ring
        _ ≤ (10 * d + i * δ + d) * (P1 * P2 * P3) := hcu
        _ = (P1 * P2) * ((10 * d + i * δ + d) * P3) := by ring
    exact Nat.le_of_mul_le_mul_left c1 (by positivity)
  have hcl2 : (10 * d + i * δ) * P3 ≤ my * d + d * P3 := by
    have c1 : (P1 * P2) * ((10 * d + i * δ) * P3) ≤ (P1 * P2) * (my * d + d * P3) := by
      calc (P1 * P2) * ((10 * d + i * δ) * P3)
          = (10 * d + i * δ) * (P1 * P2 * P3) := by ring
        _ ≤ my * (P1 * P2 * d) + d * (P1 * P2 * P3) := hcl
        _ = (P1 * P2) * (my * d + d * P3) := by ring
    exact Nat.le_of_mul_le_mul_left c1 (by positivity)
  have hdm := Nat.div_add_mod (10 * d + i * δ) d
  have hrlt := Nat.mod_lt (10 * d + i * δ) hd0
  generalize hgF : (10 * d + i * δ) / d = F at hdm ⊢
  generalize hgR : (10 * d + i * δ) % d = r at hdm hrlt
  constructor
  · -- lower bound: F ≤ k + 1
    have hmylt : my < (my / P3 + 1) * P3 := by
      have d1 := Nat.div_add_mod my P3
      have d2 := Nat.mod_lt my hP3pos
      linarith [d1, d2]
    have c2 : F * d * P3 ≤ (10 * d + i * δ) * P3 :=
      Nat.mul_le_mul_right _ (by linarith [hdm])
    have c3 : my * d < ((my / P3 + 1) * P3) * d :=
      (mul_lt_mul_right hd0).mpr hmylt
    have c4 : F * (P3 * d) < (my / P3 + 2) * (P3 * d) := by linarith [c2, hcl2, c3]
    have c5 : F < my / P3 + 2 := lt_of_mul_lt_mul_right c4 (Nat.zero_le _)
    exact Nat.lt_succ_iff.mp c5
  · -- upper bound: k ≤ F + 1
    have e1 : 10 * d + i * δ + d + 1 ≤ (F + 2) * d := by linarith [hdm, hrlt]
    have e2 : (10 * d + i * δ + d + 1) * P3 ≤ ((F + 2) * d) * P3 :=
      Nat.mul_le_mul_right _ e1
    have c3 : my * d < ((F + 2) * P3) * d := by linarith [hcu2, e2, hP3pos]
    have c4 : my < (F + 2) * P3 := lt_of_mul_lt_mul_right c3 (Nat.zero_le _)
    have c5 : my / P3 < F + 2 := (Nat.div_lt_iff_lt_mul hP3pos).mpr c4
    exact Nat.lt_succ_iff.mp c5

lemma stage2_valid {δ d i : ℕ} (hd3 : 3 ≤ d) (hd29 : d ≤ 29) (hδ90 : 90 ≤ δ)
    (hδub : δ ≤ 19990) (hi1 : 1 ≤ i) (hi29 : i ≤ 29) :
    (0 : ℕ) < 2 ^ (flN δ d).2 ∧ 2 ^ (flN δ d).2 ≤ i * (flN δ d).1 ∧
    i * (flN δ d).1 < 2 ^ 53 * 2 ^ (flN δ d).2 := by
  obtain ⟨hms1, hms2, hP1a, hP1b, _, _⟩ := stage1_facts hd3 hd29 hδ90 hδub
  refine ⟨by positivity, ?_, ?_⟩
  · have h1 : (flN δ d).1 ≤ i * (flN δ d).1 := Nat.le_mul_of_pos_left _ (by omega)
    omega
  · have h1 : i * (flN δ d).1 ≤ 29 * 2 ^ 53 := Nat.mul_le_mul hi29 hms2
    have h2 : 2 ^ 53 * (3 * 2 ^ 37) ≤ 2 ^ 53 * 2 ^ (flN δ d).2 :=
      Nat.mul_le_mul_left _ hP1a
    omega

lemma stage3_valid {δ d i : ℕ} (hd3 : 3 ≤ d) (hd29 : d ≤ 29) (hδ90 : 90 ≤ δ)
    (hδub : δ ≤ 19990) (hi1 : 1 ≤ i) (hi29 : i ≤ 29) :
    (0 : ℕ) < 2 ^ (flN (i * (flN δ d).1) (2 ^ (flN δ d).2)).2 ∧
    2 ^ (flN (i * (flN δ d).1) (2 ^ (flN δ d).2)).2 ≤ (flN (i * (flN δ d).1) (2 ^ (flN δ d).2)).1 + 10 * 2 ^ (flN (i * (flN δ d).1) (2 ^ (flN δ d).2)).2 ∧
    (flN (i * (flN δ d).1) (2 ^ (flN δ d).2)).1 + 10 * 2 ^ (flN (i * (flN δ d).1) (2 ^ (flN δ d).2)).2 < 2 ^ 53 * 2 ^ (flN (i * (flN δ d).1) (2 ^ (flN δ d).2)).2 := by
  obtain ⟨hmp1, hmp2, hP2a, hP2b, _, _⟩ := stage2_facts hd3 hd29 hδ90 hδub hi1 hi29
  refine ⟨by positivity, by omega, by omega⟩

lemma linElemF_mono {δ d i j : ℕ} (hd3 : 3 ≤ d) (hd29 : d ≤ 29) (hδ90 : 90 ≤ δ)
    (hδub : δ ≤ 19990) (hi1 : 1 ≤ i) (hij : i ≤ j) (hj29 : j ≤ 29) :
    linElemF 10 δ d i ≤ linElemF 10 δ d j := by
  have hj1 : 1 ≤ j := le_trans hi1 hij
  have hi29 : i ≤ 29 := le_trans hij hj29
  obtain ⟨hb2i, hbai, hubi⟩ := stage2_valid hd3 hd29 hδ90 hδub hi1 hi29
  obtain ⟨hb2j, hbaj, hubj⟩ := stage2_valid hd3 hd29 hδ90 hδub hj1 hj29
  have hcross2 : i * (flN δ d).1 * 2 ^ (flN δ d).2 ≤ j * (flN δ d).1 * 2 ^ (flN δ d).2 :=
    Nat.mul_le_mul_right _ (Nat.mul_le_mul_right _ hij)
  have hmono2 := flN_mono hb2i hb2j hbai hbaj hubi hubj hcross2
  obtain ⟨hb3i, hba3i, hub3i⟩ := stage3_valid hd3 hd29 hδ90 hδub hi1 hi29
  obtain ⟨hb3j, hba3j, hub3j⟩ := stage3_valid hd3 hd29 hδ90 hδub hj1 hj29
  have hcross3 : ((flN (i * (flN δ d).1) (2 ^ (flN δ d).2)).1 + 10 * 2 ^ (flN (i * (flN δ d).1) (2 ^ (flN δ d).2)).2) * 2 ^ (flN (j * (flN δ d).1) (2 ^ (flN δ d).2)).2 ≤ ((flN (j * (flN δ d).1) (2 ^ (flN δ d).2)).1 + 10 * 2 ^ (flN (j * (flN δ d).1) (2 ^ (flN δ d).2)).2) * 2 ^ (flN (i * (flN δ d).1) (2 ^ (flN δ d).2)).2 := by
    calc ((flN (i * (flN δ d).1) (2 ^ (flN δ d).2)).1 + 10 * 2 ^ (flN (i * (flN δ d).1) (2 ^ (flN δ d).2)).2) * 2 ^ (flN (j * (flN δ d).1) (2 ^ (flN δ d).2)).2
        = (flN (i * (flN δ d).1) (2 ^ (flN δ d).2)).1 * 2 ^ (flN (j * (flN δ d).1) (2 ^ (flN δ d).2)).2 + 10 * (2 ^ (flN (i * (flN δ d).1) (2 ^ (flN δ d).2)).2 * 2 ^ (flN (j * (flN δ d).1) (2 ^ (flN δ d).2)).2) := by ring
      _ ≤ (flN (j * (flN δ d).1) (2 ^ (flN δ d).2)).1 * 2 ^ (flN (i * (flN δ d).1) (2 ^ (flN δ d).2)).2 + 10 * (2 ^ (flN (i * (flN δ d).1) (2 ^ (flN δ d).2)).2 * 2 ^ (flN (j * (flN δ d).1) (2 ^ (flN δ d).2)).2) :=
          Nat.add_le_add_right hmono2 _
      _ = ((flN (j * (flN δ d).1) (2 ^ (flN δ d).2)).1 + 10 * 2 ^ (flN (j * (flN δ d).1) (2 ^ (flN δ d).2)).2) * 2 ^ (flN (i * (flN δ d).1) (2 ^ (flN δ d).2)).2 := by ring
  have hmono3 := flN_mono hb3i hb3j hba3i hba3j hub3i hub3j hcross3
  have hki : linElemF 10 δ d i = (flN ((flN (i * (flN δ d).1) (2 ^ (flN δ d).2)).1 + 10 * 2 ^ (flN (i * (flN δ d).1) (2 ^ (flN δ d).2)).2) (2 ^ (flN (i * (flN δ d).1) (2 ^ (flN δ d).2)).2)).1 / 2 ^ (flN ((flN (i * (flN δ d).1) (2 ^ (flN δ d).2)).1 + 10 * 2 ^ (flN (i * (flN δ d).1) (2 ^ (flN δ d).2)).2) (2 ^ (flN (i * (flN δ d).1) (2 ^ (flN δ d).2)).2)).2 := rfl
  have hkj : linElemF 10 δ d j = (flN ((flN (j * (flN δ d).1) (2 ^ (flN δ d).2)).1 + 10 * 2 ^ (flN (j * (flN δ d).1) (2 ^ (flN δ d).2)).2) (2 ^ (flN (j * (flN δ d).1) (2 ^ (flN δ d).2)).2)).1 / 2 ^ (flN ((flN (j * (flN δ d).1) (2 ^ (flN δ d).2)).1 + 10 * 2 ^ (flN (j * (flN δ d).1) (2 ^ (flN δ d).2)).2) (2 ^ (flN (j * (flN δ d).1) (2 ^ (flN δ d).2)).2)).2 := rfl
  rw [hki, hkj]
  exact nat_div_le_div_cross (by positivity) (by positivity) hmono3

lemma linElemF_ge10 {δ d i : ℕ} (hd3 : 3 ≤ d) (hd29 : d ≤ 29) (hδ90 : 90 ≤ δ)
    (hδub : δ ≤ 19990) (hi1 : 1 ≤ i) (hi29 : i ≤ 29) :
    10 ≤ linElemF 10 δ d i := by
  have h10a : (flN 10 1).1 = 10 * 2 ^ 49 := by decide
  have h10b : (flN 10 1).2 = 49 := by decide
  obtain ⟨hb3, hba3, hub3⟩ := stage3_valid hd3 hd29 hδ90 hδub hi1 hi29
  have hcross : 10 * 2 ^ (flN (i * (flN δ d).1) (2 ^ (flN δ d).2)).2 ≤ ((flN (i * (flN δ d).1) (2 ^ (flN δ d).2)).1 + 10 * 2 ^ (flN (i * (flN δ d).1) (2 ^ (flN δ d).2)).2) * 1 := by
    calc 10 * 2 ^ (flN (i * (flN δ d).1) (2 ^ (flN δ d).2)).2 ≤ (flN (i * (flN δ d).1) (2 ^ (flN δ d).2)).1 + 10 * 2 ^ (flN (i * (flN δ d).1) (2 ^ (flN δ d).2)).2 := Nat.le_add_left _ _
      _ = ((flN (i * (flN δ d).1) (2 ^ (flN δ d).2)).1 + 10 * 2 ^ (flN (i * (flN δ d).1) (2 ^ (flN δ d).2)).2) * 1 := (Nat.mul_one _).symm
  have hm := flN_mono one_pos hb3 (by norm_num) hba3 (by norm_num) hub3 hcross
  rw [h10a, h10b] at hm
  have h2 : 10 * 2 ^ (flN ((flN (i * (flN δ d).1) (2 ^ (flN δ d).2)).1 + 10 * 2 ^ (flN (i * (flN δ d).1) (2 ^ (flN δ d).2)).2) (2 ^ (flN (i * (flN δ d).1) (2 ^ (flN δ d).2)).2)).2 ≤ (flN ((flN (i * (flN δ d).1) (2 ^ (flN δ d).2)).1 + 10 * 2 ^ (flN (i * (flN δ d).1) (2 ^ (flN δ d).2)).2) (2 ^ (flN (i * (flN δ d).1) (2 ^ (flN δ d).2)).2)).1 := by
    have h3 : (10 * 2 ^ (flN ((flN (i * (flN δ d).1) (2 ^ (flN δ d).2)).1 + 10 * 2 ^ (flN (i * (flN δ d).1) (2 ^ (flN δ d).2)).2) (2 ^ (flN (i * (flN δ d).1) (2 ^ (flN δ d).2)).2)).2) * 2 ^ 49 ≤ (flN ((flN (i * (flN δ d).1) (2 ^ (flN δ d).2)).1 + 10 * 2 ^ (flN (i * (flN δ d).1) (2 ^ (flN δ d).2)).2) (2 ^ (flN (i * (flN δ d).1) (2 ^ (flN δ d).2)).2)).1 * 2 ^ 49 := by
      calc (10 * 2 ^ (flN ((flN (i * (flN δ d).1) (2 ^ (flN δ d).2)).1 + 10 * 2 ^ (flN (i * (flN δ d).1) (2 ^ (flN δ d).2)).2) (2 ^ (flN (i * (flN δ d).1) (2 ^ (flN δ d).2)).2)).2) * 2 ^ 49
          = 10 * 2 ^ 49 * 2 ^ (flN ((flN (i * (flN δ d).1) (2 ^ (flN δ d).2)).1 + 10 * 2 ^ (flN (i * (flN δ d).1) (2 ^ (flN δ d).2)).2) (2 ^ (flN (i * (flN δ d).1) (2 ^ (flN δ d).2)).2)).2 := by ring
        _ ≤ (flN ((flN (i * (flN δ d).1) (2 ^ (flN δ d).2)).1 + 10 * 2 ^ (flN (i * (flN δ d).1) (2 ^ (flN δ d).2)).2) (2 ^ (flN (i * (flN δ d).1) (2 ^ (flN δ d).2)).2)).1 * 2 ^ 49 := hm
    exact Nat.le_of_mul_le_mul_right h3 (by positivity)
  have hk : linElemF 10 δ d i = (flN ((flN (i * (flN δ d).1) (2 ^ (flN δ d).2)).1 + 10 * 2 ^ (flN (i * (flN δ d).1) (2 ^ (flN δ d).2)).2) (2 ^ (flN (i * (flN δ d).1) (2 ^ (flN δ d).2)).2)).1 / 2 ^ (flN ((flN (i * (flN δ d).1) (2 ^ (flN δ d).2)).1 + 10 * 2 ^ (flN (i * (flN δ d).1) (2 ^ (flN δ d).2)).2) (2 ^ (flN (i * (flN δ d).1) (2 ^ (flN δ d).2)).2)).2 := rfl
  rw [hk]
  exact (Nat.le_div_iff_mul_le (by positivity)).mpr h2


lemma interp_floor_bound {δ d i : ℕ} (hd3 : 3 ≤ d) (hd29 : d ≤ 29)
    (hδ90 : 90 ≤ δ) (hi : i ≤ d - 1) : (10 * d + i * δ) / d + 2 ≤ 10 + δ := by
  have h1 : (10 * d + i * δ) / d * d ≤ 10 * d + i * δ := Nat.div_mul_le_self _ _
  have h2 : i * δ ≤ (d - 1) * δ := Nat.mul_le_mul_right _ hi
  have h3 : (d - 1) * δ + δ = d * δ := by
    have hd1 : d - 1 + 1 = d := by omega
    calc (d - 1) * δ + δ = ((d - 1) + 1) * δ := by ring
      _ = d * δ := by rw [hd1]
  have h4 : ((10 * d + i * δ) / d + 2) * d ≤ (10 + δ) * d := by
    have e1 : ((10 * d + i * δ) / d + 2) * d = (10 * d + i * δ) / d * d + 2 * d := by
      ring
    have e2 : (10 + δ) * d = 10 * d + d * δ := by ring
    omega
  exact Nat.le_of_mul_le_mul_right h4 (by omega)

/-- Claim C1: for every `max_n` in `[100, 20000]` and `steps` in `[4, 30]`,
the size sequence produced inside `measure_times` has exactly `steps`
elements, is non-decreasing, its first element equals 10, and its last
element equals `max_n`. -/
theorem sampler_shape (max_n : ℤ) (steps : ℕ) (h1 : 100 ≤ max_n)
    (h2 : max_n ≤ 20000) (h3 : 4 ≤ steps) (h4 : steps ≤ 30) :
    (linspaceInt 10 max_n steps).length = steps ∧
    List.Sorted (· ≤ ·) (linspaceInt 10 max_n steps) ∧
    (linspaceInt 10 max_n steps).get? 0 = some 10 ∧
    (linspaceInt 10 max_n steps).get? (steps - 1) = some max_n := by
  have hδ90 : 90 ≤ (max_n - 10).toNat := by omega
  have hδub : (max_n - 10).toNat ≤ 19990 := by omega
  have hd3 : 3 ≤ steps - 1 := by omega
  have hd29 : steps - 1 ≤ 29 := by omega
  have hmax : max_n = 10 + ((max_n - 10).toNat : ℤ) := by omega
  refine ⟨linspace_length _ _ _, ?_, ?_, linspace_get_last (by omega)⟩
  · rw [linspaceInt, if_neg (by omega), if_neg (by omega)]
    rw [List.Sorted, List.pairwise_map]
    refine (List.pairwise_lt_range _).imp_of_mem ?_
    intro a b ha hb hab
    have hb2 : b < steps := List.mem_range.mp hb
    have hstart : ((10 : ℤ).toNat) = 10 := rfl
    rw [hstart]
    by_cases hbl : b = steps - 1
    · rw [if_pos hbl, if_neg (by omega)]
      by_cases ha0 : a = 0
      · subst ha0
        rw [linElemF_zero]
        push_cast
        omega
      · have hub := (linElemF_bounds hd3 hd29 hδ90 hδub (by omega)
          (by omega : a ≤ 29)).2
        have hF2 := interp_floor_bound hd3 hd29 hδ90 (by omega : a ≤ steps - 1 - 1)
        generalize hgF : (10 * (steps - 1) + a * (max_n - 10).toNat) / (steps - 1) = F
          at hub hF2
        have hfin : linElemF 10 (max_n - 10).toNat (steps - 1) a ≤
            10 + (max_n - 10).toNat := by omega
        omega
    · rw [if_neg hbl, if_neg (by omega)]
      by_cases ha0 : a = 0
      · subst ha0
        rw [linElemF_zero]
        have hge := linElemF_ge10 hd3 hd29 hδ90 hδub (by omega : 1 ≤ b)
          (by omega : b ≤ 29)
        exact_mod_cast hge
      · have hmono := linElemF_mono hd3 hd29 hδ90 hδub (by omega : 1 ≤ a)
          (by omega : a ≤ b) (by omega : b ≤ 29)
        exact_mod_cast hmono
  · rw [linspace_get_lt (by omega) (by omega)]
    have hstart : ((10 : ℤ).toNat) = 10 := rfl
    rw [hstart, linElemF_zero]
    norm_num

/-- Witness for `sampler_shape` at `max_n = 1000`, `steps = 5`. -/
theorem sampler_shape_witness :
    (linspaceInt 10 1000 5).length = 5 ∧
    List.Sorted (· ≤ ·) (linspaceInt 10 1000 5) ∧
    (linspaceInt 10 1000 5).get? 0 = some 10 ∧
    (linspaceInt 10 1000 5).get? (5 - 1) = some 1000 :=
  sampler_shape 1000 5 (by decide) (by decide) (by decide) (by decide)

/-- Claim C2 (amended): the interior sampled values are the linear
interpolation `10 + i * (max_n - 10) / (steps - 1)` evaluated in IEEE-754
binary64 arithmetic as numpy does and truncated toward zero — within one
unit of the floor of the exact interpolation, but neither that exact floor
nor the exact value rounded to nearest — and the final value is `max_n`
exactly. -/
theorem sampler_values_float (max_n : ℤ) (steps : ℕ) (h1 : 100 ≤ max_n)
    (h2 : max_n ≤ 20000) (h3 : 4 ≤ steps) (h4 : steps ≤ 30) :
    (∀ i : ℕ, i < steps - 1 →
      (linspaceInt 10 max_n steps).get? i =
        some ((linElemF 10 (max_n - 10).toNat (steps - 1) i : ℕ) : ℤ) ∧
      (10 * ((steps : ℤ) - 1) + i * (max_n - 10)) / ((steps : ℤ) - 1) - 1 ≤
        ((linElemF 10 (max_n - 10).toNat (steps - 1) i : ℕ) : ℤ) ∧
      ((linElemF 10 (max_n - 10).toNat (steps - 1) i : ℕ) : ℤ) ≤
        (10 * ((steps : ℤ) - 1) + i * (max_n - 10)) / ((steps : ℤ) - 1) + 1) ∧
    (linspaceInt 10 max_n steps).get? (steps - 1) = some max_n := by
  have hδ90 : 90 ≤ (max_n - 10).toNat := by omega
  have hδub : (max_n - 10).toNat ≤ 19990 := by omega
  have hd3 : 3 ≤ steps - 1 := by omega
  have hd29 : steps - 1 ≤ 29 := by omega
  refine ⟨?_, linspace_get_last (by omega)⟩
  intro i hi
  have hget : (linspaceInt 10 max_n steps).get? i =
      some ((linElemF 10 (max_n - 10).toNat (steps - 1) i : ℕ) : ℤ) := by
    rw [linspace_get_lt (by omega) hi]
    rfl
  have hsd : ((steps - 1 : ℕ) : ℤ) = (steps : ℤ) - 1 := by omega
  have hδeq : (((max_n - 10).toNat : ℕ) : ℤ) = max_n - 10 := by omega
  have hcast : (10 * ((steps : ℤ) - 1) + i * (max_n - 10)) / ((steps : ℤ) - 1) =
      ((10 * (steps - 1) + i * (max_n - 10).toNat : ℕ) : ℤ) /
        (((steps - 1 : ℕ)) : ℤ) := by
    congr 1
    · have e : ((10 * (steps - 1) + i * (max_n - 10).toNat : ℕ) : ℤ) =
          10 * ((steps - 1 : ℕ) : ℤ) + (i : ℤ) * (((max_n - 10).toNat : ℕ) : ℤ) := by
        push_cast
        ring
      rw [e, hsd, hδeq]
    · exact hsd.symm
  rw [hcast, ← Int.natCast_div]
  by_cases hi0 : i = 0
  · subst hi0
    rw [linElemF_zero]
    have hnum : 10 * (steps - 1) + 0 * (max_n - 10).toNat = 10 * (steps - 1) := by
      ring
    rw [hnum, Nat.mul_div_cancel 10 (by omega : 0 < steps - 1)]
    rw [linElemF_zero] at hget
    refine ⟨hget, by norm_num, by norm_num⟩
  · obtain ⟨hlb, hub⟩ := linElemF_bounds hd3 hd29 hδ90 hδub (by omega)
      (by omega : i ≤ 29)
    generalize hgF : (10 * (steps - 1) + i * (max_n - 10).toNat) / (steps - 1) = F
      at hlb hub ⊢
    refine ⟨hget, ?_, ?_⟩ <;> omega

/-- Witness for `sampler_values_float` at `max_n = 1001`, `steps = 5`,
`i = 2` (the float64 value 505.5 truncates to 505). -/
theorem sampler_values_float_witness :
    (linspaceInt 10 1001 5).get? 2 = some 505 := by
  have h := (sampler_values_float 1001 5 (by norm_num) (by norm_num)
    (by norm_num) (by norm_num)).1 2 (by norm_num)
  have hval : (linElemF 10 ((1001 : ℤ) - 10).toNat (5 - 1) 2 : ℕ) = 505 := by decide
  rw [h.1, hval]
  norm_num

/-- Counterexample to claim C2 as stated: at `max_n = 1001`, `steps = 5`,
`i = 1` the code produces 257 (truncation of 257.75) where rounding to
nearest gives 258; and the values are not even the exact interpolation
truncated: at `max_n = 1000`, `steps = 15`, `i = 7` float64 evaluation
yields 504.99999999999994, truncated to 504, while the exact
interpolation is exactly 505. -/
theorem sampler_not_round_to_nearest :
    (linspaceInt 10 1001 5).get? 1 = some 257 ∧
    round ((10 : ℚ) + (1 : ℚ) * (((1001 : ℤ) : ℚ) - 10) / (((5 : ℕ) : ℚ) - 1)) = 258 ∧
    (257 : ℤ) ≠ 258 ∧
    (linspaceInt 10 1000 15).get? 7 = some 504 ∧
    (10 * ((15 : ℤ) - 1) + 7 * (1000 - 10)) / ((15 : ℤ) - 1) = 505 ∧
    (504 : ℤ) ≠ 505 := by
  refine ⟨by decide, ?_, by decide, by decide, by decide, by decide⟩
  rw [round_eq]
  norm_num [Int.floor_eq_iff]


/-! ## Measurement-loop lemmas -/

lemma measureLoop_length (clock : ℕ → ℚ) :
    ∀ (l : List ℤ) (j : ℕ), (measureLoop clock l j).length = l.length := by
  intro l
  induction l with
  | nil => intro j; rfl
  | cons n rest ih => intro j; simp [measureLoop, ih]

lemma measureLoop_get (clock : ℕ → ℚ) :
    ∀ (l : List ℤ) (k j : ℕ),
      (measureLoop clock l k).get? j =
        (l.get? j).map (fun _ => clock (2 * (k + j) + 1) - clock (2 * (k + j))) := by
  intro l
  induction l with
  | nil => intro k j; rfl
  | cons n rest ih =>
    intro k j
    cases j with
    | zero => simp [measureLoop]
    | succ j =>
      have hkj : (k + 1) + j = k + (j + 1) := by omega
      simp only [measureLoop, List.get?_cons_succ]
      rw [ih (k + 1) j, hkj]

/-- Claim C3: `measure_times` returns two sequences of equal length
(`steps` each), the first being the sampled sizes, with exactly one
duration per sampled size and in the same order (the `j`-th duration is
the one measured by the `j`-th pair of clock reads, which brackets the run
at the `j`-th size; positions past the end hold no duration). -/
theorem measure_times_parallel (algorithm_func : Algo) (clock : ℕ → ℚ)
    (max_n : ℤ) (steps : ℕ) :
    (measure_times algorithm_func clock max_n steps).1.length =
      (measure_times algorithm_func clock max_n steps).2.length ∧
    (measure_times algorithm_func clock max_n steps).1 = linspaceInt 10 max_n steps ∧
    (measure_times algorithm_func clock max_n steps).1.length = steps ∧
    (∀ j : ℕ,
      (measure_times algorithm_func clock max_n steps).2.get? j =
        ((measure_times algorithm_func clock max_n steps).1.get? j).map
          (fun _ => clock (2 * j + 1) - clock (2 * j))) := by
  refine ⟨?_, rfl, linspace_length _ _ _, ?_⟩
  · exact (measureLoop_length clock _ 0).symm
  · intro j
    have h := measureLoop_get clock (linspaceInt 10 max_n steps) 0 j
    simpa using h

/-- Claim C4: each recorded duration is `end - start` for the two clock
reads bracketing the single invocation at that size, and if the clock is
monotone then every reported duration is non-negative. -/
theorem measured_durations (algorithm_func : Algo) (clock : ℕ → ℚ)
    (max_n : ℤ) (steps : ℕ) (hmono : Monotone clock) :
    (∀ j : ℕ, j < steps →
      (measure_times algorithm_func clock max_n steps).2.get? j =
        some (clock (2 * j + 1) - clock (2 * j)) ∧
      0 ≤ clock (2 * j + 1) - clock (2 * j)) ∧
    ∀ t ∈ (measure_times algorithm_func clock max_n steps).2, 0 ≤ t := by
  have hlen : (measure_times algorithm_func clock max_n steps).2.length = steps := by
    have h1 := (measure_times_parallel algorithm_func clock max_n steps).1
    have h2 := (measure_times_parallel algorithm_func clock max_n steps).2.2.1
    omega
  have hget := (measure_times_parallel algorithm_func clock max_n steps).2.2.2
  have hlen1 : (measure_times algorithm_func clock max_n steps).1.length = steps :=
    (measure_times_parallel algorithm_func clock max_n steps).2.2.1
  constructor
  · intro j hj
    have hs : (measure_times algorithm_func clock max_n steps).1.get? j =
        some ((measure_times algorithm_func clock max_n steps).1.get ⟨j, by omega⟩) :=
      List.get?_eq_get (by omega)
    refine ⟨?_, sub_nonneg.mpr (hmono (by omega))⟩
    rw [hget j, hs]
    rfl
  · intro t ht
    obtain ⟨⟨j, hjl⟩, hjt⟩ := List.mem_iff_get.mp ht
    have h1 : (measure_times algorithm_func clock max_n steps).2.get? j = some t := by
      rw [List.get?_eq_get hjl, hjt]
    have h2 : (measure_times algorithm_func clock max_n steps).1.get? j =
        some ((measure_times algorithm_func clock max_n steps).1.get ⟨j, by omega⟩) :=
      List.get?_eq_get (by omega)
    have h3 := hget j
    rw [h1, h2] at h3
    simp only [Option.map_some', Option.some.injEq] at h3
    rw [h3]
    exact sub_nonneg.mpr (hmono (by omega))

/-- Witness for `measured_durations`: constant clock, `max_n = 100`,
`steps = 4`, index 0. -/
theorem measured_durations_witness :
    (measure_times Algo.linear_search (fun _ => (0 : ℚ)) 100 4).2.get? 0 =
      some (0 - 0) ∧ (0 : ℚ) ≤ 0 - 0 :=
  (measured_durations Algo.linear_search (fun _ => (0 : ℚ)) 100 4
    monotone_const).1 0 (by decide)

/-! ## Handler lemmas -/

lemma lookup_eq_none_of_not_mem {α β : Type} [BEq α] [LawfulBEq α]
    (l : List (α × β)) (a : α) (h : a ∉ l.map Prod.fst) : l.lookup a = none := by
  induction l with
  | nil => rfl
  | cons p rest ih =>
    obtain ⟨k, v⟩ := p
    simp only [List.map_cons, List.mem_cons] at h
    push_neg at h
    have hne : (a == k) = false := beq_eq_false_iff_ne.mpr h.1
    simp [List.lookup, hne, ih h.2]

/-- Claim C6: out-of-range `max_n` and `steps` are not errors; the handler
silently clamps `max_n` to `[100, 20000]` and `steps` to `[4, 30]`
(`50 ↦ 100`, `999999 ↦ 20000`, `1 ↦ 4`, `100 ↦ 30`), and for a supported
identifier the request succeeds for every integer parameter pair, with the
clamped values in the response context. -/
theorem clamping_behaviour :
    (∀ n : ℤ, 100 ≤ clampN n ∧ clampN n ≤ 20000) ∧
    (∀ s : ℤ, 4 ≤ clampSteps s ∧ clampSteps s ≤ 30) ∧
    clampN 50 = 100 ∧ clampN 999999 = 20000 ∧
    clampSteps 1 = 4 ∧ clampSteps 100 = 30 ∧
    (∀ (clock : ℕ → ℚ) (n s : ℤ), ∃ ok : SuccessResponse,
      analyze clock "linear" n s = Except.ok ok ∧
      ok.max_n = clampN n ∧ ok.steps = clampSteps s) := by
  refine ⟨fun n => ⟨?_, ?_⟩, fun s => ⟨?_, ?_⟩,
    by decide, by decide, by decide, by decide, ?_⟩
  · simp only [clampN]; omega
  · simp only [clampN]; omega
  · simp only [clampSteps]; omega
  · simp only [clampSteps]; omega
  · intro clock n s
    have hlin : pyLowerStrip "linear" = "linear" := by decide
    have hlook : List.lookup "linear" ALGORITHMS =
        some Algo.linear_search := by decide
    refine ⟨⟨"linear", clampN n, clampSteps s,
      (measure_times Algo.linear_search clock (clampN n) (clampSteps s).toNat).1,
      (measure_times Algo.linear_search clock (clampN n) (clampSteps s).toNat).2⟩,
      ?_, rfl, rfl⟩
    simp only [analyze, hlin, hlook]

/-- Claim C7: for every algorithm identifier not in the alias table after
lowercasing and trimming, the handler returns an HTTP 400 client error
whose message enumerates the supported identifiers, and the response does
not depend on the clock oracle (no measurement is performed). -/
theorem unknown_algorithm_rejected (clock clock2 : ℕ → ℚ) (algoRaw : String)
    (n s : ℤ) (h : pyLowerStrip algoRaw ∉ ALGORITHMS.map Prod.fst) :
    analyze clock algoRaw n s =
      Except.error ⟨"error",
        "Unknown algorithm. Supported: linear, linearsearch, bubble, bubblesort, bubble_sort, binary, binarysearch, nested, nestedloops, exponential",
        400⟩ ∧
    analyze clock algoRaw n s = analyze clock2 algoRaw n s := by
  have hnone : ALGORITHMS.lookup (pyLowerStrip algoRaw) = none :=
    lookup_eq_none_of_not_mem _ _ h
  have key : ∀ c : ℕ → ℚ, analyze c algoRaw n s =
      Except.error ⟨"error",
        "Unknown algorithm. Supported: linear, linearsearch, bubble, bubblesort, bubble_sort, binary, binarysearch, nested, nestedloops, exponential",
        400⟩ := by
    intro c
    simp only [analyze, hnone]
    rfl
  exact ⟨key clock, (key clock).trans (key clock2).symm⟩

/-- Witness for `unknown_algorithm_rejected`: the identifier
`" QuickSort "` normalizes to `"quicksort"`, which is unsupported. -/
theorem unknown_algorithm_rejected_witness :
    analyze (fun _ => 0) " QuickSort " 3 7 =
      Except.error ⟨"error",
        "Unknown algorithm. Supported: linear, linearsearch, bubble, bubblesort, bubble_sort, binary, binarysearch, nested, nestedloops, exponential",
        400⟩ :=
  (unknown_algorithm_rejected (fun _ => 0) (fun _ => 1) " QuickSort " 3 7
    (by decide)).1

/-- Claim C8: `save_analysis_result` never propagates an exception: under
the hypothesis that the database returns a positive autoincrement id on
success, it yields either a success status carrying that positive id or an
error status with no id, and the persistence outcome cannot alter the
measurement response already computed. -/
theorem save_result_isolated (db : Except String ℤ)
    (hdb : ∀ i : ℤ, db = Except.ok i → 0 < i) :
    (((save_analysis_result db).status = "success" ∧
        (save_analysis_result db).status_code = 201 ∧
        ∃ i : ℤ, 0 < i ∧ (save_analysis_result db).saved_id = some i) ∨
      ((save_analysis_result db).status = "error" ∧
        (save_analysis_result db).status_code = 500 ∧
        (save_analysis_result db).saved_id = none)) ∧
    ∀ (clock : ℕ → ℚ) (algoRaw : String) (n s : ℤ) (db2 : Except String ℤ),
      (analyze_and_save clock algoRaw n s db).1 =
        (analyze_and_save clock algoRaw n s db2).1 := by
  constructor
  · cases db with
    | ok i => exact Or.inl ⟨rfl, rfl, i, hdb i rfl, rfl⟩
    | error e => exact Or.inr ⟨rfl, rfl, rfl⟩
  · intro clock algoRaw n s db2
    rfl

/-- Witness for `save_result_isolated` at a successful commit with id 7. -/
theorem save_result_isolated_witness :
    (save_analysis_result (Except.ok 7)).status = "success" ∨
    (save_analysis_result (Except.ok 7)).status = "error" := by
  rcases (save_result_isolated (Except.ok 7)
      (fun i hi => by injection hi with h2; omega)).1 with h | h
  · exact Or.inl h.1
  · exact Or.inr h.1

/-! ## Binary-search lemmas -/

lemma bsMid_bounds {left right : ℤ} (h : left ≤ right) :
    left ≤ bsMid left right ∧ bsMid left right ≤ right := by
  unfold bsMid
  omega

lemma pyGet_of_bounds {arr : List ℤ} {i : ℤ} (h0 : 0 ≤ i)
    (h1 : i < arr.length) :
    ∃ h : i.toNat < arr.length, pyGet arr i = some (arr.get ⟨i.toNat, h⟩) := by
  have ht : i.toNat < arr.length := by omega
  exact ⟨ht, by rw [pyGet, if_pos h0, List.get?_eq_get ht]⟩

lemma bsAux_ne_fuelOut (arr : List ℤ) (t : ℤ) :
    ∀ (fuel : ℕ) (left right : ℤ), (right + 1 - left).toNat < fuel →
      bsAux arr t fuel left right ≠ BSOutcome.fuelOut := by
  intro fuel
  induction fuel with
  | zero => intro left right h; omega
  | succ fuel ih =>
    intro left right h
    simp only [bsAux]
    by_cases hlr : left ≤ right
    · rw [if_pos hlr]
      have hmid := bsMid_bounds hlr
      split
      · simp
      · split_ifs with hv hlt
        · simp
        · exact ih _ _ (by omega)
        · exact ih _ _ (by omega)
    · rw [if_neg hlr]
      simp

lemma bsAux_ne_indexError (arr : List ℤ) (t : ℤ) :
    ∀ (fuel : ℕ) (left right : ℤ), 0 ≤ left → right < (arr.length : ℤ) →
      bsAux arr t fuel left right ≠ BSOutcome.indexError := by
  intro fuel
  induction fuel with
  | zero => intro left right h0 h1; simp [bsAux]
  | succ fuel ih =>
    intro left right h0 h1
    simp only [bsAux]
    by_cases hlr : left ≤ right
    · rw [if_pos hlr]
      have hmid := bsMid_bounds hlr
      split
      · rename_i hnone
        obtain ⟨hm, hpg⟩ := @pyGet_of_bounds arr (bsMid left right)
          (by omega) (by omega)
        rw [hnone] at hpg
        exact absurd hpg (by simp)
      · rename_i v hpg2
        split_ifs with hv hlt
        · simp
        · exact ih _ _ (by omega) h1
        · exact ih _ _ h0 (by omega)
    · rw [if_neg hlr]
      simp

lemma bsAux_ok_shape (arr : List ℤ) (t : ℤ) :
    ∀ (fuel : ℕ) (left right : ℤ) (i : ℤ), 0 ≤ left →
      bsAux arr t fuel left right = BSOutcome.ok i →
      i = -1 ∨ (0 ≤ i ∧ pyGet arr i = some t) := by
  intro fuel
  induction fuel with
  | zero => intro left right i h0 h; simp [bsAux] at h
  | succ fuel ih =>
    intro left right i h0 h
    rw [bsAux] at h
    by_cases hlr : left ≤ right
    · rw [if_pos hlr] at h
      have hmid := bsMid_bounds hlr
      revert h
      split
      · intro h
        exact absurd h (by simp)
      · rename_i v hpg
        split_ifs with hv hlt
        · intro h
          have hieq : bsMid left right = i := by
            injection h
          right
          subst hieq
          subst hv
          exact ⟨by omega, hpg⟩
        · intro h
          exact ih _ _ _ (by omega) h
        · intro h
          exact ih _ _ _ h0 h
    · rw [if_neg hlr] at h
      left
      injection h with h2
      omega

lemma bsAux_miss (arr : List ℤ) (t : ℤ) (hs : arr.Sorted (· ≤ ·)) :
    ∀ (fuel : ℕ) (left right : ℤ), 0 ≤ left → right < (arr.length : ℤ) →
      (∀ (j : ℕ) (hj : j < arr.length), (j : ℤ) < left → arr.get ⟨j, hj⟩ < t) →
      (∀ (j : ℕ) (hj : j < arr.length), right < (j : ℤ) → t < arr.get ⟨j, hj⟩) →
      bsAux arr t fuel left right = BSOutcome.ok (-1) →
      ∀ (j : ℕ) (hj : j < arr.length), arr.get ⟨j, hj⟩ ≠ t := by
  intro fuel
  induction fuel with
  | zero =>
    intro left right _ _ _ _ h
    simp [bsAux] at h
  | succ fuel ih =>
    intro left right h0 h1 hlow hhigh h
    rw [bsAux] at h
    by_cases hlr : left ≤ right
    · rw [if_pos hlr] at h
      have hmid := bsMid_bounds hlr
      obtain ⟨hm, hpg⟩ := @pyGet_of_bounds arr (bsMid left right)
        (by omega) (by omega)
      revert h
      split
      · intro h
        exact absurd h (by simp)
      · rename_i v hpg2
        have hv_eq : v = arr.get ⟨(bsMid left right).toNat, hm⟩ :=
          Option.some.inj (hpg2.symm.trans hpg)
        split_ifs with hv hlt
        · intro h
          injection h with h2
          omega
        · intro h
          refine ih (bsMid left right + 1) right (by omega) h1 ?_ hhigh h
          intro j hj hjlt
          by_cases hjl : (j : ℤ) < left
          · exact hlow j hj hjl
          · have hjm : j ≤ (bsMid left right).toNat := by omega
            have hle : arr.get ⟨j, hj⟩ ≤ arr.get ⟨(bsMid left right).toNat, hm⟩ :=
              hs.rel_get_of_le hjm
            calc arr.get ⟨j, hj⟩ ≤ arr.get ⟨(bsMid left right).toNat, hm⟩ := hle
              _ = v := hv_eq.symm
              _ < t := hlt
        · intro h
          have htv : t < v := by omega
          refine ih left (bsMid left right - 1) h0 (by omega) hlow ?_ h
          intro j hj hjgt
          by_cases hjr : right < (j : ℤ)
          · exact hhigh j hj hjr
          · have hjm : (bsMid left right).toNat ≤ j := by omega
            have hle : arr.get ⟨(bsMid left right).toNat, hm⟩ ≤ arr.get ⟨j, hj⟩ :=
              hs.rel_get_of_le hjm
            calc t < v := htv
              _ = arr.get ⟨(bsMid left right).toNat, hm⟩ := hv_eq
              _ ≤ arr.get ⟨j, hj⟩ := hle
    · rw [if_neg hlr] at h
      intro j hj
      by_cases hjl : (j : ℤ) < left
      · exact ne_of_lt (hlow j hj hjl)
      · exact ne_of_gt (hhigh j hj (by omega))

lemma bs_found_of_mem (arr : List ℤ) (t : ℤ) (hs : arr.Sorted (· ≤ ·))
    (hmem : t ∈ arr) :
    ∃ i : ℤ, 0 ≤ i ∧ i.toNat < arr.length ∧
      binary_search_work arr t = BSOutcome.ok i ∧ arr.get? i.toNat = some t := by
  have hne_f : bsAux arr t (arr.length + 1) 0 ((arr.length : ℤ) - 1) ≠
      BSOutcome.fuelOut := bsAux_ne_fuelOut arr t _ 0 _ (by omega)
  have hne_i : bsAux arr t (arr.length + 1) 0 ((arr.length : ℤ) - 1) ≠
      BSOutcome.indexError := bsAux_ne_indexError arr t _ 0 _ (le_refl 0) (by omega)
  cases hres : bsAux arr t (arr.length + 1) 0 ((arr.length : ℤ) - 1) with
  | fuelOut => exact absurd hres hne_f
  | indexError => exact absurd hres hne_i
  | ok i =>
    rcases bsAux_ok_shape arr t _ 0 _ i (le_refl 0) hres with h1 | ⟨hi0, hpg⟩
    · subst h1
      have hmiss := bsAux_miss arr t hs (arr.length + 1) 0 ((arr.length : ℤ) - 1)
        (le_refl 0) (by omega)
        (fun j hj hlt => absurd hlt (by omega))
        (fun j hj hgt => absurd hgt (by omega)) hres
      obtain ⟨⟨jf, hjf⟩, hjt⟩ := List.mem_iff_get.mp hmem
      exact absurd hjt (hmiss jf hjf)
    · rw [pyGet, if_pos hi0] at hpg
      obtain ⟨hlt, _⟩ := List.get?_eq_some.mp hpg
      exact ⟨i, hi0, hlt, by rw [binary_search_work]; exact hres, hpg⟩

lemma bs_miss_of_not_mem (arr : List ℤ) (t : ℤ) (hs : arr.Sorted (· ≤ ·))
    (hnm : t ∉ arr) : binary_search_work arr t = BSOutcome.ok (-1) := by
  have hne_f : bsAux arr t (arr.length + 1) 0 ((arr.length : ℤ) - 1) ≠
      BSOutcome.fuelOut := bsAux_ne_fuelOut arr t _ 0 _ (by omega)
  have hne_i : bsAux arr t (arr.length + 1) 0 ((arr.length : ℤ) - 1) ≠
      BSOutcome.indexError := bsAux_ne_indexError arr t _ 0 _ (le_refl 0) (by omega)
  cases hres : bsAux arr t (arr.length + 1) 0 ((arr.length : ℤ) - 1) with
  | fuelOut => exact absurd hres hne_f
  | indexError => exact absurd hres hne_i
  | ok i =>
    rcases bsAux_ok_shape arr t _ 0 _ i (le_refl 0) hres with h1 | ⟨hi0, hpg⟩
    · subst h1
      rw [binary_search_work]
      exact hres
    · rw [pyGet, if_pos hi0] at hpg
      exact absurd (List.get?_mem hpg) hnm

/-- Claim C5: `binary_search_work` applied to a sorted array returns an
index holding the target when the target is present and `-1` when absent;
on `[1,3,5,7,9]` it returns 4 for target 9 and `-1` for target 4; and for
a sorted non-empty array with target equal to its last element it returns
a valid index. -/
theorem binary_search_work_correct (arr : List ℤ) (t : ℤ)
    (hs : arr.Sorted (· ≤ ·)) :
    ((t ∈ arr → ∃ i : ℤ, 0 ≤ i ∧ i.toNat < arr.length ∧
        binary_search_work arr t = BSOutcome.ok i ∧ arr.get? i.toNat = some t) ∧
      (t ∉ arr → binary_search_work arr t = BSOutcome.ok (-1))) ∧
    binary_search_work [1, 3, 5, 7, 9] 9 = BSOutcome.ok 4 ∧
    binary_search_work [1, 3, 5, 7, 9] 4 = BSOutcome.ok (-1) ∧
    ∀ h : arr ≠ [], ∃ i : ℤ, 0 ≤ i ∧ i.toNat < arr.length ∧
      binary_search_work arr (arr.getLast h) = BSOutcome.ok i := by
  refine ⟨⟨bs_found_of_mem arr t hs, bs_miss_of_not_mem arr t hs⟩,
    by decide, by decide, ?_⟩
  intro h
  obtain ⟨i, h1, h2, h3, _⟩ :=
    bs_found_of_mem arr (arr.getLast h) hs (List.getLast_mem h)
  exact ⟨i, h1, h2, h3⟩

/-- Witness for `binary_search_work_correct` on the concrete sorted array
`[1,3,5,7,9]` with target 9. -/
theorem binary_search_work_correct_witness :
    binary_search_work [1, 3, 5, 7, 9] 9 = BSOutcome.ok 4 :=
  (binary_search_work_correct [1, 3, 5, 7, 9] 9 (by decide)).2.1

/-- Claim C9: every array access performed by `binary_search_work` is in
bounds; for every list and target the `IndexError` branch is unreachable. -/
theorem binary_search_no_index_error (arr : List ℤ) (t : ℤ) :
    binary_search_work arr t ≠ BSOutcome.indexError := by
  rw [binary_search_work]
  exact bsAux_ne_indexError arr t _ 0 _ (le_refl 0) (by omega)

/-- Claim C10: the loop of `binary_search_work` terminates: whenever the
loop guard `left ≤ right` holds, both continuation branches strictly
decrease `right - left`, and consequently the `len(arr) + 1` fuel bound of
the embedding is never exhausted on any input. -/
theorem binary_search_terminates :
    (∀ left right : ℤ, left ≤ right →
      right - (bsMid left right + 1) < right - left ∧
      (bsMid left right - 1) - left < right - left ∧
      left ≤ bsMid left right ∧ bsMid left right ≤ right) ∧
    ∀ (arr : List ℤ) (t : ℤ), binary_search_work arr t ≠ BSOutcome.fuelOut := by
  constructor
  · intro left right h
    have := bsMid_bounds h
    omega
  · intro arr t
    rw [binary_search_work]
    exact bsAux_ne_fuelOut arr t _ 0 _ (by omega)

/-- Witness for `binary_search_terminates` at `left = 0`, `right = 5`. -/
theorem binary_search_terminates_witness :
    (5 : ℤ) - (bsMid 0 5 + 1) < 5 - 0 ∧ (bsMid 0 5 - 1) - 0 < 5 - 0 ∧
    (0 : ℤ) ≤ bsMid 0 5 ∧ bsMid 0 5 ≤ 5 :=
  binary_search_terminates.1 0 5 (by decide)
